import Mathlib

/-!
# Verification of `src/event-system.js`: EventBus and CacheManager

A shallow embedding of the event bus (publish/subscribe registry of
callbacks) and the TTL cache (`CacheManager`) of `src/event-system.js`,
together with proofs about the claims of the specification.

Modelling conventions:
* JavaScript values that the cache stores or the bus delivers are `JsValue`
  (`null`, strings, integers); machine time (`Date.now()`) is an explicit
  `Int` parameter `now` threaded through the operations.
* A JavaScript function object registered as a callback is a `Callback`:
  its `id` is the function's reference identity (two `on` calls pass "the
  same callback reference" exactly when the ids are equal), and its `kind`
  is its behaviour when invoked (record the invocation, throw, or — for the
  wrapper that `once` builds — invoke the inner callback and then remove
  itself).
* The `setTimeout` timers armed by `CacheManager.set` live in an explicit
  list of pending timers (`CacheState.timers`); `clearTimeout` removes a
  timer from that list, and `timerFire` models the runtime firing one
  pending timer (running the body of the `setTimeout` callback of
  `src/event-system.js` lines 160-163).
* Observable effects are instrumented: `BusState.invocations` records each
  callback invocation with its arguments, `BusState.emitted` records each
  `emit` call, and `BusState.errors` counts the `console.error` calls made
  by `emit`'s `try/catch` when a subscriber throws.
-/

namespace EventSystem

/-- A JavaScript value as far as the bus and the cache observe it. -/
inductive JsValue where
  | vnull
  | vstr (s : String)
  | vnum (n : Int)
deriving DecidableEq, Repr

/-- JavaScript's `String.prototype.trim()`: strips leading and trailing
whitespace.  (Lean's own `String.trim` is not kernel-reducible, so the same
function is written over the character list.) -/
def jsTrim (s : String) : String :=
  ⟨((s.data.dropWhile Char.isWhitespace).reverse.dropWhile Char.isWhitespace).reverse⟩

/-- Behaviour of a callback function when it is invoked. `wrapper inner ev`
is the closure that `EventBus.once` registers: it invokes the callback with
reference identity `inner` and then runs its own remover for event `ev`. -/
inductive CbKind where
  | plain
  | throwing
  | wrapper (inner : Nat) (evento : String)
deriving DecidableEq, Repr

/-- A callback function object: `id` is its reference identity (JavaScript
`Set` membership of functions is reference equality). -/
structure Callback where
  id : Nat
  kind : CbKind
deriving DecidableEq, Repr

namespace EventBus

/-- The private state of the `EventBus` module together with the
instrumentation of its observable effects.  `listeners` is the
`Map<string, Set<function>>`: an association list whose per-event callback
list keeps insertion order and (by construction in `on`) holds no two
callbacks with the same reference identity, which is JavaScript `Set`
semantics. -/
structure BusState where
  listeners : List (String × List Callback)
  /-- Instrumentation: each callback invocation `(callback id, args)`, in order. -/
  invocations : List (Nat × List JsValue)
  /-- Instrumentation: each `emit(evento, ...datos)` call, in order. -/
  emitted : List (String × List JsValue)
  /-- Instrumentation: how many subscriber errors `emit`'s `try/catch` caught. -/
  errors : Nat
deriving DecidableEq, Repr

/-- A freshly constructed bus: `const listeners = new Map()`. -/
def emptyBus : BusState := ⟨[], [], [], 0⟩

/-- `listeners.get(e)` (`Map.get`: the value at the first — and only —
entry with key `e`, or `undefined`). -/
def getEvent : List (String × List Callback) → String → Option (List Callback)
  | [], _ => none
  | (e1, cbs) :: rest, e => if e1 = e then some cbs else getEvent rest e

/-- Overwriting the callback set stored under an existing key `e`
(the in-place mutation of the `Set` object that `Map.get(e)` returns). -/
def setEvent : List (String × List Callback) → String → List Callback →
    List (String × List Callback)
  | [], _, _ => []
  | (e1, c1) :: rest, e, cbs =>
      if e1 = e then (e, cbs) :: rest else (e1, c1) :: setEvent rest e cbs

/-- `validarTipo` (lines 7-14): the event name must be a non-empty string
after trimming.  In this embedding event names are `String`s and callbacks
are always function objects, so only the emptiness check can fail. -/
def validarTipo (evento : String) : Bool :=
  jsTrim evento != ""

/-- The remover closure returned by `on` (lines 29-31): it captures the
event name and the callback reference. -/
structure Remover where
  evento : String
  cb : Callback
deriving DecidableEq, Repr

/-- Lines 22-24 of `on`: `if (!listeners.has(evento)) listeners.set(evento,
new Set())` — the listener map after the event's `Set` is created when
missing. -/
def onListeners (st : BusState) (evento : String) :
    List (String × List Callback) :=
  match getEvent st.listeners evento with
  | some _ => st.listeners
  | none => st.listeners ++ [(evento, [])]

/-- Line 26 of `on`: `listeners.get(evento).add(callback)` — the event's
callback set after the add, which is a no-op when a callback with the same
reference identity is already present (`Set.add`). -/
def onCbs (st : BusState) (evento : String) (cb : Callback) : List Callback :=
  let cbs := (getEvent (onListeners st evento) evento).getD []
  if cbs.any (fun c => c.id == cb.id) then cbs else cbs ++ [cb]

/-- `EventBus.on` (lines 19-32): validate, create the event's `Set` if
missing, add the callback, and return the remover closure. -/
def «on» (st : BusState) (evento : String) (cb : Callback) :
    Except String (BusState × Remover) :=
  if validarTipo evento then
    Except.ok
      ({ st with
          listeners := setEvent (onListeners st evento) evento (onCbs st evento cb) },
        ⟨evento, cb⟩)
  else Except.error "El nombre del evento debe ser un string no vacio"

/-- Invoking the remover closure of `on` (lines 29-31):
`listeners.get(evento).delete(callback)`.  When the event has no registry
entry, `listeners.get(evento)` is `undefined` and the member access throws
a `TypeError`. -/
def runRemover (st : BusState) (r : Remover) : Except String BusState :=
  match getEvent st.listeners r.evento with
  | none => Except.error "TypeError: cannot read properties of undefined"
  | some cbs =>
      Except.ok { st with
        listeners := setEvent st.listeners r.evento
          (cbs.filter (fun c => c.id != r.cb.id)) }

/-- `EventBus.off` (lines 35-39): checks `listeners.has(evento)` first, so
it never throws. -/
def off (st : BusState) (evento : String) (cb : Callback) : BusState :=
  match getEvent st.listeners evento with
  | none => st
  | some cbs =>
      { st with
        listeners := setEvent st.listeners evento
          (cbs.filter (fun c => c.id != cb.id)) }

/-- Whether a callback with reference identity `id` is currently in the
event's registered set. -/
def registered (st : BusState) (evento : String) (id : Nat) : Bool :=
  ((getEvent st.listeners evento).getD []).any (fun c => c.id == id)

/-- One callback invocation inside `emit`'s `try { callback(...datos) }
catch { console.error(...) }` (lines 50-54):
* a `plain` callback records its invocation;
* a `throwing` callback raises — the catch logs it and dispatch continues;
* the `wrapper` built by `once` invokes the inner callback with the
  received arguments and then runs its own remover
  (`listeners.get(ev).delete(wrapper)`); if that remover itself threw (the
  event's entry gone), the throw would be caught by the same `try/catch`. -/
def invokeCb (st : BusState) (args : List JsValue) (cb : Callback) : BusState :=
  match cb.kind with
  | CbKind.plain => { st with invocations := st.invocations ++ [(cb.id, args)] }
  | CbKind.throwing => { st with errors := st.errors + 1 }
  | CbKind.wrapper inner ev =>
      let st1 := { st with invocations := st.invocations ++ [(inner, args)] }
      match getEvent st1.listeners ev with
      | none => { st1 with errors := st1.errors + 1 }
      | some cbs =>
          { st1 with
            listeners := setEvent st1.listeners ev
              (cbs.filter (fun c => c.id != cb.id)) }

/-- `callbacks.forEach(...)` (lines 49-55): JavaScript `Set.forEach` visits
the elements in insertion order and skips an element that was removed from
the set before the iterator reaches it (the only mutation the modelled
callbacks perform is removal, as `once`'s wrapper does). -/
def dispatch (evento : String) (args : List JsValue) :
    List Callback → BusState → BusState
  | [], st => st
  | cb :: rest, st =>
      if registered st evento cb.id then
        dispatch evento args rest (invokeCb st args cb)
      else
        dispatch evento args rest st

/-- `EventBus.emit` (lines 42-57).  The event name is a `String` by type,
so the `typeof evento !== "string"` guard passes; with no subscribers the
call is a silent no-op.  The call itself is recorded in the `emitted`
trace. -/
def emit (st : BusState) (evento : String) (args : List JsValue) : BusState :=
  let st0 := { st with emitted := st.emitted ++ [(evento, args)] }
  match getEvent st0.listeners evento with
  | none => st0
  | some cbs => dispatch evento args cbs st0

/-- `EventBus.once` (lines 60-67): validate, then register (via `on`) a
fresh wrapper function around `cb`.  `wid` is the wrapper closure's
reference identity — a freshly allocated function object, so theorems
assume it differs from the identities already registered. -/
def once (st : BusState) (evento : String) (cb : Callback) (wid : Nat) :
    Except String BusState :=
  if validarTipo evento then
    («on» st evento ⟨wid, CbKind.wrapper cb.id evento⟩).map Prod.fst
  else Except.error "El nombre del evento debe ser un string no vacio"

/-- `EventBus.debug` (lines 70-76): event names with their subscriber
counts. -/
def debug (st : BusState) : List (String × Nat) :=
  st.listeners.map (fun p => (p.1, p.2.length))

/-- `EventBus.clear` (lines 79-81): `listeners.clear()`. -/
def clear (st : BusState) : BusState :=
  { st with listeners := [] }

end EventBus

/-- The `clave` argument of `CacheManager.set` as JavaScript receives it:
either a string or a value of some other type (`typeof clave !== "string"`). -/
inductive JsArg where
  | str (s : String)
  | nonStr
deriving DecidableEq, Repr

/-- The `ttl` argument of `CacheManager.set`: an integer number, `NaN`
(which is of `typeof "number"` but compares false against everything), or a
value that is not a number at all. -/
inductive TtlArg where
  | num (n : Int)
  | nanV
  | nonNum
deriving DecidableEq, Repr

namespace Cache

/-- One entry of the cache `Map` (lines 167-171): the stored value, the
absolute expiry timestamp (`0` = never expires), and the `setTimeout`
handle (`null` when no timer was armed). -/
structure Entry where
  valor : JsValue
  expiracion : Int
  timeoutId : Option Nat
deriving DecidableEq, Repr

/-- A pending `setTimeout` scheduled by `CacheManager.set`: its runtime
handle `tid`, the key its firing deletes, and the wall-clock instant it is
scheduled to fire at. -/
structure Timer where
  tid : Nat
  clave : String
  fireAt : Int
deriving DecidableEq, Repr

/-- The private state of the `CacheManager` module: the `cache` `Map` (an
association list in insertion order, at most one entry per key), the
runtime's list of pending timers armed by this module, the hit/miss
counters, a counter allocating fresh `setTimeout` handles, and the event
bus the cache emits through. -/
structure CacheState where
  cache : List (String × Entry)
  timers : List Timer
  hits : Nat
  misses : Nat
  nextTid : Nat
  bus : EventBus.BusState
deriving DecidableEq, Repr

/-- A freshly constructed cache module over a given bus (lines 122-127). -/
def freshCache (bus : EventBus.BusState) : CacheState := ⟨[], [], 0, 0, 0, bus⟩

/-- `cache.get(k)` / `cache.has(k)` on the association list. -/
def mapLookup : List (String × Entry) → String → Option Entry
  | [], _ => none
  | (k1, e) :: rest, k => if k1 = k then some e else mapLookup rest k

/-- `cache.set(k, e)`: replace the existing entry in place, else append. -/
def mapSet : List (String × Entry) → String → Entry → List (String × Entry)
  | [], k, e => [(k, e)]
  | (k1, e1) :: rest, k, e =>
      if k1 = k then (k, e) :: rest else (k1, e1) :: mapSet rest k e

/-- `cache.delete(k)`. -/
def mapDelete (l : List (String × Entry)) (k : String) : List (String × Entry) :=
  l.filter (fun p => p.1 != k)

/-- `clearTimeout(t)`: the pending timer with handle `t`, if any, never
fires. -/
def clearTimeout (timers : List Timer) (t : Nat) : List Timer :=
  timers.filter (fun tm => tm.tid != t)

/-- `limpiarEntrada` (lines 130-139): if the key is present, cancel its
entry's pending timeout (when it has one) and delete the entry. -/
def limpiarEntrada (st : CacheState) (clave : String) : CacheState :=
  match mapLookup st.cache clave with
  | none => st
  | some entrada =>
      let timers := match entrada.timeoutId with
        | some t => clearTimeout st.timers t
        | none => st.timers
      { st with cache := mapDelete st.cache clave, timers := timers }

/-- `CacheManager.set` (lines 143-178), at wall-clock time `now`
(`Date.now()`):
* throws when `clave` is not a string or trims to the empty string;
* a `ttl` that is not a number, or is negative, is replaced by `0`; `NaN`
  survives the guard (`typeof NaN === "number"` and `NaN < 0` is false) but
  then fails `ttl > 0` exactly as `0` does, so it is normalised here too;
* tears down any existing entry for the key (`limpiarEntrada`), then, when
  `ttl > 0`, computes `expiracion = now + ttl` and arms a `setTimeout`
  firing `ttl` from now whose body is `cache.delete(clave)`
  (lines 160-163); with `ttl = 0` no timer is armed and `expiracion = 0`;
* stores the new entry. -/
def set (st : CacheState) (clave : JsArg) (valor : JsValue) (ttl : TtlArg)
    (now : Int) : Except String CacheState :=
  match clave with
  | JsArg.nonStr => Except.error "La clave debe ser un string no vacio"
  | JsArg.str s =>
      if jsTrim s = "" then Except.error "La clave debe ser un string no vacio"
      else
        let ttlN : Int := match ttl with
          | TtlArg.num n => if n < 0 then 0 else n
          | _ => 0
        let st1 := limpiarEntrada st s
        if 0 < ttlN then
          Except.ok { st1 with
            cache := mapSet st1.cache s ⟨valor, now + ttlN, some st1.nextTid⟩,
            timers := st1.timers ++ [⟨st1.nextTid, s, now + ttlN⟩],
            nextTid := st1.nextTid + 1 }
        else
          Except.ok { st1 with cache := mapSet st1.cache s ⟨valor, 0, none⟩ }

/-- `CacheManager.get` (lines 180-202), at wall-clock time `now`: a missing
key counts a miss and emits `cache:miss`; a present entry whose expiry is
set and strictly in the past (`entrada.expiracion < ahora`) is torn down
lazily, counts a miss and emits `cache:miss`; otherwise the value is
returned, a hit is counted and `cache:hit` is emitted.  JavaScript's `null`
return is `JsValue.vnull`. -/
def get (st : CacheState) (clave : String) (now : Int) : JsValue × CacheState :=
  match mapLookup st.cache clave with
  | none =>
      (JsValue.vnull,
        { st with misses := st.misses + 1,
                  bus := EventBus.emit st.bus "cache:miss" [JsValue.vstr clave] })
  | some entrada =>
      if 0 < entrada.expiracion ∧ entrada.expiracion < now then
        let st1 := limpiarEntrada st clave
        (JsValue.vnull,
          { st1 with misses := st1.misses + 1,
                     bus := EventBus.emit st1.bus "cache:miss" [JsValue.vstr clave] })
      else
        (entrada.valor,
          { st with hits := st.hits + 1,
                    bus := EventBus.emit st.bus "cache:hit"
                      [JsValue.vstr clave, entrada.valor] })

/-- `CacheManager.del` (lines 204-211): tear down the entry when present
and report whether it was. -/
def del (st : CacheState) (clave : String) : Bool × CacheState :=
  match mapLookup st.cache clave with
  | some _ => (true, limpiarEntrada st clave)
  | none => (false, st)

/-- The runtime fires the pending timer `t` (the `setTimeout` body of
lines 160-163): the timer leaves the pending list and the body runs
`cache.delete(clave)` — with no guard on the entry's identity.  Theorems
apply this only to a timer that is actually pending (`t ∈ st.timers`),
since `clearTimeout` prevents a cancelled timer from ever firing. -/
def timerFire (st : CacheState) (t : Timer) : CacheState :=
  { st with timers := clearTimeout st.timers t.tid,
            cache := mapDelete st.cache t.clave }

/-- `CacheManager.debug` (lines 213-219). -/
def debug (st : CacheState) : Nat × (Nat × Nat) × List String :=
  (st.cache.length, (st.hits, st.misses), st.cache.map Prod.fst)

/-- `CacheManager.clear` (lines 221-229): `limpiarEntrada` on every
currently stored key (cancelling every armed timer), then `cache.clear()`
and both counters reset to zero. -/
def cacheClear (st : CacheState) : CacheState :=
  let st1 := (st.cache.map Prod.fst).foldl limpiarEntrada st
  { st1 with cache := [], hits := 0, misses := 0 }

end Cache

/-! ## Scenario helpers

`set`, `on` and `once` are fallible; on the valid inputs the scenarios use
they always succeed, and these wrappers extract the result state. -/

/-- `CacheManager.set` on a valid key: the resulting state. -/
def setD (st : Cache.CacheState) (clave : JsArg) (valor : JsValue)
    (ttl : TtlArg) (now : Int) : Cache.CacheState :=
  match Cache.set st clave valor ttl now with
  | Except.ok st1 => st1
  | Except.error _ => st

/-- `EventBus.on` on a valid event name: the resulting state and remover. -/
def onD (st : EventBus.BusState) (e : String) (cb : Callback) :
    EventBus.BusState × EventBus.Remover :=
  match EventBus.«on» st e cb with
  | Except.ok p => p
  | Except.error _ => (st, ⟨e, cb⟩)

/-- `EventBus.once` on a valid event name: the resulting state. -/
def onceD (st : EventBus.BusState) (e : String) (cb : Callback) (wid : Nat) :
    EventBus.BusState :=
  match EventBus.once st e cb wid with
  | Except.ok st1 => st1
  | Except.error _ => st

/-! ## Registry lemmas for the event bus -/

namespace EventBus

theorem getEvent_setEvent_self (l : List (String × List Callback)) (e : String)
    (cbs : List Callback) (h : (getEvent l e).isSome) :
    getEvent (setEvent l e cbs) e = some cbs := by
  induction l with
  | nil => simp [getEvent] at h
  | cons p rest ih =>
    by_cases he : p.1 = e
    · simp [getEvent, setEvent, he]
    · simp [getEvent, setEvent, he] at h ⊢
      exact ih h

theorem getEvent_setEvent_ne (l : List (String × List Callback)) (e e' : String)
    (cbs : List Callback) (h : e' ≠ e) :
    getEvent (setEvent l e cbs) e' = getEvent l e' := by
  induction l with
  | nil => simp [setEvent]
  | cons p rest ih =>
    by_cases he : p.1 = e
    · simp [getEvent, setEvent, he, Ne.symm h]
    · simp only [setEvent, he, if_false, getEvent]
      by_cases he' : p.1 = e'
      · simp [he']
      · simp [he', ih]

theorem setEvent_setEvent (l : List (String × List Callback)) (e : String)
    (a b : List Callback) : setEvent (setEvent l e a) e b = setEvent l e b := by
  induction l with
  | nil => simp [setEvent]
  | cons p rest ih =>
    by_cases he : p.1 = e
    · simp [setEvent, he]
    · simp [setEvent, he, ih]

theorem setEvent_same (l : List (String × List Callback)) (e : String)
    (cbs : List Callback) (h : getEvent l e = some cbs) : setEvent l e cbs = l := by
  induction l with
  | nil => simp [getEvent] at h
  | cons p rest ih =>
    obtain ⟨p1, p2⟩ := p
    by_cases he : p1 = e
    · subst he
      simp [getEvent] at h
      simp [setEvent, h]
    · simp [getEvent, he] at h
      simp [setEvent, he, ih h]

theorem getEvent_append_right (l : List (String × List Callback)) (e : String)
    (x : List Callback) (h : getEvent l e = none) :
    getEvent (l ++ [(e, x)]) e = some x := by
  induction l with
  | nil => simp [getEvent]
  | cons p rest ih =>
    by_cases he : p.1 = e
    · simp [getEvent, he] at h
    · simp [getEvent, he] at h ⊢
      exact ih h

theorem filter_ne_idem (cbs : List Callback) (i : Nat) :
    (cbs.filter (fun c => c.id != i)).filter (fun c => c.id != i) =
      cbs.filter (fun c => c.id != i) := by
  induction cbs with
  | nil => rfl
  | cons c rest ih =>
    by_cases hc : c.id = i
    · simp [List.filter_cons, hc, ih]
    · simp [List.filter_cons, hc, ih]

/-- The effect of invoking the remover closure while the event's registry
entry exists: every callback with the captured reference identity leaves
the event's set. -/
theorem runRemover_ok (st : BusState) (r : Remover) (cbs : List Callback)
    (h : getEvent st.listeners r.evento = some cbs) :
    runRemover st r = Except.ok { st with
      listeners := setEvent st.listeners r.evento
        (cbs.filter (fun c => c.id != r.cb.id)) } := by
  unfold runRemover
  rw [h]

/-- A successful removal is stable: invoking the same remover again
returns the state unchanged. -/
theorem runRemover_runRemover (st st2 : BusState) (r : Remover)
    (h : runRemover st r = Except.ok st2) : runRemover st2 r = Except.ok st2 := by
  unfold runRemover at h
  cases hg : getEvent st.listeners r.evento with
  | none => rw [hg] at h; exact absurd h (by simp)
  | some cbs =>
    rw [hg] at h
    simp only [Except.ok.injEq] at h
    subst h
    unfold runRemover
    rw [getEvent_setEvent_self _ _ _ (by simp [hg])]
    simp [filter_ne_idem, setEvent_setEvent]

/-- The event's registry entry exists after `onListeners` ensured it. -/
theorem onListeners_isSome (st : BusState) (e : String) :
    (getEvent (onListeners st e) e).isSome = true := by
  unfold onListeners
  cases hg : getEvent st.listeners e with
  | some cbs => simp [hg]
  | none => simp [getEvent_append_right _ _ _ hg]

/-- After line 26's `add`, the callback's reference identity is in the
event's set. -/
theorem onCbs_mem (st : BusState) (e : String) (cb : Callback) :
    (onCbs st e cb).any (fun c => c.id == cb.id) = true := by
  unfold onCbs
  by_cases ha : ((getEvent (onListeners st e) e).getD []).any
      (fun c => c.id == cb.id) = true
  · simp [ha]
  · simp only [ha, if_false, List.any_append]
    simp

/-- `on` on a valid event name succeeds, with the state and the remover it
builds. -/
theorem on_valid (st : BusState) (e : String) (cb : Callback)
    (hv : validarTipo e = true) :
    «on» st e cb = Except.ok
      ({ st with listeners := setEvent (onListeners st e) e (onCbs st e cb) },
        ⟨e, cb⟩) := by
  simp [«on», hv]

end EventBus

/-! ## C3: the remover's cancellation contract -/

/-- The bus after subscribing a callback to `"e"` and then calling the
bus's `clear()` (the registry entry for `"e"` is gone). -/
def clearedBus : EventBus.BusState :=
  EventBus.clear (onD EventBus.emptyBus "e" ⟨0, CbKind.plain⟩).1

/-- The remover that the `on` call behind `clearedBus` returned. -/
def orphanRemover : EventBus.Remover :=
  (onD EventBus.emptyBus "e" ⟨0, CbKind.plain⟩).2

/-- **C3 (counterexample).** The claim says invoking a remover when the
event's registry entry is absent — for example after the bus's `clear()` —
is a no-op that does not raise any error.  On the code it is not: after
`on("e", cb)` and `clear()`, invoking the returned remover dereferences
`listeners.get("e")`, which is `undefined`, and throws a `TypeError`
(line 30 has no `has` check, unlike `off`). -/
theorem remover_after_clear_raises :
    EventBus.runRemover clearedBus orphanRemover =
      Except.error "TypeError: cannot read properties of undefined" := by rfl

/-- **C3 (amended).** The remover returned by `on(eventName, callback)`
removes exactly that callback from that event's registry and leaves every
other event's registry untouched, and it is idempotent while the event's
registry entry exists: a second invocation is a no-op.  But when the
event's registry entry is absent (for example after the bus's `clear()`),
invoking the remover throws a `TypeError` instead of being a no-op. -/
theorem remover_contract :
    (∀ st e cb, EventBus.validarTipo e = true →
      ∃ st1 r cbs st2,
        EventBus.«on» st e cb = Except.ok (st1, r) ∧
        EventBus.getEvent st1.listeners e = some cbs ∧
        EventBus.runRemover st1 r = Except.ok st2 ∧
        EventBus.getEvent st2.listeners e =
          some (cbs.filter (fun c => c.id != cb.id)) ∧
        (∀ e2, e2 ≠ e →
          EventBus.getEvent st2.listeners e2 =
            EventBus.getEvent st1.listeners e2) ∧
        EventBus.runRemover st2 r = Except.ok st2) ∧
    (∀ st r, EventBus.getEvent st.listeners r.evento = none →
      EventBus.runRemover st r =
        Except.error "TypeError: cannot read properties of undefined") := by
  constructor
  · intro st e cb hv
    have hget1 : EventBus.getEvent
        (EventBus.setEvent (EventBus.onListeners st e) e (EventBus.onCbs st e cb)) e =
        some (EventBus.onCbs st e cb) :=
      EventBus.getEvent_setEvent_self _ _ _ (EventBus.onListeners_isSome st e)
    refine ⟨_, _, EventBus.onCbs st e cb, _, EventBus.on_valid st e cb hv, hget1,
      EventBus.runRemover_ok _ ⟨e, cb⟩ _ hget1, ?_, ?_, ?_⟩
    · exact EventBus.getEvent_setEvent_self _ _ _ (by simp [hget1])
    · intro e2 he2
      exact EventBus.getEvent_setEvent_ne _ _ _ _ he2
    · exact EventBus.runRemover_runRemover _ _ _
        (EventBus.runRemover_ok _ ⟨e, cb⟩ _ hget1)
  · intro st r h
    unfold EventBus.runRemover
    rw [h]

/-! ## C4: duplicate subscriptions with the same callback reference -/

namespace EventBus

/-- Subscribing to an event with no registry entry yields the singleton
set `[cb]`. -/
theorem onCbs_fresh (st : BusState) (e : String) (cb : Callback)
    (h : getEvent st.listeners e = none) : onCbs st e cb = [cb] := by
  simp [onCbs, onListeners, h, getEvent_append_right _ _ _ h]

/-- `on` with a callback whose reference identity is already in the
event's set: `Set.add` is a no-op, so the state is returned unchanged. -/
theorem on_already_registered (st : BusState) (e : String) (cb : Callback)
    (cbs : List Callback) (hv : validarTipo e = true)
    (hg : getEvent st.listeners e = some cbs)
    (hmem : cbs.any (fun c => c.id == cb.id) = true) :
    «on» st e cb = Except.ok (st, ⟨e, cb⟩) := by
  have hL : onListeners st e = st.listeners := by
    unfold onListeners
    rw [hg]
  have hC : onCbs st e cb = cbs := by
    unfold onCbs
    rw [hL, hg]
    simp [hmem]
  rw [on_valid st e cb hv, hL, hC, setEvent_same _ _ _ hg]

/-- A second `on` with the same callback reference returns the state and
remover of the first: no independent registry entry is created. -/
theorem on_on_same (st : BusState) (e : String) (cb : Callback)
    (st1 : BusState) (r1 : Remover) (h : «on» st e cb = Except.ok (st1, r1)) :
    «on» st1 e cb = Except.ok (st1, r1) := by
  by_cases hv : validarTipo e = true
  · rw [on_valid st e cb hv] at h
    simp only [Except.ok.injEq, Prod.mk.injEq] at h
    obtain ⟨h1, h2⟩ := h
    have hget1 : getEvent st1.listeners e = some (onCbs st e cb) := by
      rw [← h1]
      exact getEvent_setEvent_self _ _ _ (onListeners_isSome st e)
    rw [← h2]
    exact on_already_registered st1 e cb (onCbs st e cb) hv hget1 (onCbs_mem st e cb)
  · exfalso
    apply hv
    unfold «on» at h
    by_cases hb : validarTipo e = true
    · exact hb
    · simp [hb] at h

end EventBus

/-- The bus after `on("e", cb)` twice with the same callback reference
(reference identity 0). -/
def dupBus : EventBus.BusState :=
  (onD (onD EventBus.emptyBus "e" ⟨0, CbKind.plain⟩).1 "e" ⟨0, CbKind.plain⟩).1

/-- **C4 (counterexample).** The claim says two `on("e", cb)` calls with
the same callback reference create independent registry entries, so a
single emit invokes `cb` twice and removing via one remover leaves the
other subscription registered.  On the code the registry is a `Set` keyed
by reference identity: after both calls the entry holds `cb` once, a
single emit invokes `cb` exactly once, and invoking the first call's
remover leaves the event's set empty. -/
theorem duplicate_on_collapses :
    EventBus.getEvent dupBus.listeners "e" = some [⟨0, CbKind.plain⟩] ∧
    (EventBus.emit dupBus "e" [JsValue.vnum 1]).invocations =
      [(0, [JsValue.vnum 1])] ∧
    (EventBus.runRemover dupBus (onD EventBus.emptyBus "e" ⟨0, CbKind.plain⟩).2).map
      (fun s => EventBus.getEvent s.listeners "e") = Except.ok (some []) :=
  ⟨by decide, by decide, by rfl⟩

/-- **C4 (amended).** Two successive `on(eventName, cb)` calls with the
same callback reference do not create independent registry entries: the
underlying container is a `Set` keyed by reference identity, so the second
call is a registry no-op that returns a remover equal to the first's.  On
an event with no prior subscribers the registry then holds `cb` exactly
once and a single emit invokes `cb` exactly once. -/
theorem duplicate_on_set_semantics :
    (∀ st e cb st1 r1, EventBus.«on» st e cb = Except.ok (st1, r1) →
      EventBus.«on» st1 e cb = Except.ok (st1, r1)) ∧
    (∀ st e cb args, EventBus.validarTipo e = true →
      EventBus.getEvent st.listeners e = none → cb.kind = CbKind.plain →
      ∃ st1 r1,
        EventBus.«on» st e cb = Except.ok (st1, r1) ∧
        EventBus.«on» st1 e cb = Except.ok (st1, r1) ∧
        EventBus.getEvent st1.listeners e = some [cb] ∧
        (EventBus.emit st1 e args).invocations =
          st.invocations ++ [(cb.id, args)]) := by
  constructor
  · intro st e cb st1 r1 h
    exact EventBus.on_on_same st e cb st1 r1 h
  · intro st e cb args hv hnone hplain
    have hcbs : EventBus.onCbs st e cb = [cb] := EventBus.onCbs_fresh st e cb hnone
    have hget1 : EventBus.getEvent
        (EventBus.setEvent (EventBus.onListeners st e) e (EventBus.onCbs st e cb)) e =
        some (EventBus.onCbs st e cb) :=
      EventBus.getEvent_setEvent_self _ _ _ (EventBus.onListeners_isSome st e)
    have hget1' : EventBus.getEvent
        (EventBus.setEvent (EventBus.onListeners st e) e [cb]) e = some [cb] := by
      rw [← hcbs]
      exact hget1
    refine ⟨_, _, EventBus.on_valid st e cb hv,
      EventBus.on_on_same st e cb _ _ (EventBus.on_valid st e cb hv), ?_, ?_⟩
    · rw [hget1, hcbs]
    · rw [hcbs]
      simp [EventBus.emit, EventBus.dispatch, EventBus.registered,
        EventBus.invokeCb, hget1', hplain]

/-! ## C5: failure isolation during dispatch -/

/-- A bus whose `"cache:hit"` registry holds a throwing subscriber
(reference identity 0) followed by a well-behaved one (1). -/
def hitSubscribersBus : EventBus.BusState :=
  (onD (onD EventBus.emptyBus "cache:hit" ⟨0, CbKind.throwing⟩).1
    "cache:hit" ⟨1, CbKind.plain⟩).1

/-- A cache over `hitSubscribersBus` holding key `"k"` without expiry. -/
def hitScenarioCache : Cache.CacheState :=
  setD (Cache.freshCache hitSubscribersBus) (JsArg.str "k") (JsValue.vstr "v")
    (TtlArg.num 0) 0

/-- **C5.** A subscriber error is caught at the point of dispatch and
iteration continues: with a throwing subscriber registered before a
well-behaved one, `emit` still invokes the second subscriber, counts one
caught error, and returns normally (the error never propagates to the
emitter).  In particular a throwing first subscriber on `cache:hit` does
not prevent the second from running and `get` still returns the stored
value and counts its hit. -/
theorem emit_isolates_subscriber_errors :
    (∀ st e args a b, EventBus.getEvent st.listeners e = some [a, b] →
      a.kind = CbKind.throwing → b.kind = CbKind.plain →
      EventBus.emit st e args =
        { st with emitted := st.emitted ++ [(e, args)],
                  errors := st.errors + 1,
                  invocations := st.invocations ++ [(b.id, args)] }) ∧
    ((Cache.get hitScenarioCache "k" 7).1 = JsValue.vstr "v" ∧
      (Cache.get hitScenarioCache "k" 7).2.hits = 1 ∧
      (Cache.get hitScenarioCache "k" 7).2.bus.invocations =
        [(1, [JsValue.vstr "k", JsValue.vstr "v"])] ∧
      (Cache.get hitScenarioCache "k" 7).2.bus.errors = 1) := by
  constructor
  · intro st e args a b hg ha hb
    simp [EventBus.emit, EventBus.dispatch, EventBus.registered,
      EventBus.invokeCb, hg, ha, hb]
  · refine ⟨by decide, by decide, by decide, by decide⟩

/-! ## C9: self-removal during dispatch never skips a sibling -/

/-- What `emit` does when the event's registry holds a self-removing
wrapper (as `once` builds) followed by a plain subscriber: both run
exactly once, in order. -/
def SelfRemovalSpec (st : EventBus.BusState) (e : String) (args : List JsValue)
    (inner bid : Nat) : Prop :=
  (EventBus.emit st e args).invocations =
    st.invocations ++ [(inner, args), (bid, args)]

/-- **C9.** If the first of two subscribers removes its own subscription
during its invocation inside an `emit` (as the `once` wrapper does), that
emit still invokes the second subscriber exactly once: `Set.forEach`
reaches `b` because only the already-visited wrapper was deleted. -/
theorem self_removal_keeps_sibling (st : EventBus.BusState) (e : String)
    (args : List JsValue) (w b : Callback) (inner : Nat)
    (hg : EventBus.getEvent st.listeners e = some [w, b])
    (hw : w.kind = CbKind.wrapper inner e)
    (hb : b.kind = CbKind.plain)
    (hne : b.id ≠ w.id) :
    SelfRemovalSpec st e args inner b.id := by
  have hsome : (EventBus.getEvent st.listeners e).isSome = true := by simp [hg]
  have hset : ∀ cbs, EventBus.getEvent (EventBus.setEvent st.listeners e cbs) e =
      some cbs := fun cbs => EventBus.getEvent_setEvent_self _ _ _ hsome
  unfold SelfRemovalSpec
  simp [EventBus.emit, EventBus.dispatch, EventBus.registered,
    EventBus.invokeCb, hg, hw, hb, hset, hne, List.filter_cons]

/-- A bus with a `once` wrapper (identity 5, inner callback 0) registered
on `"e"` before a plain subscriber (identity 1). -/
def onceThenOnBus : EventBus.BusState :=
  (onD (onceD EventBus.emptyBus "e" ⟨0, CbKind.plain⟩ 5) "e" ⟨1, CbKind.plain⟩).1

/-- **C9 (witness).** The sibling-preservation theorem applied to the
concrete bus `onceThenOnBus`. -/
theorem self_removal_keeps_sibling_witness :
    SelfRemovalSpec onceThenOnBus "e" [JsValue.vnum 7] 0 1 :=
  self_removal_keeps_sibling onceThenOnBus "e" [JsValue.vnum 7]
    ⟨5, CbKind.wrapper 0 "e"⟩ ⟨1, CbKind.plain⟩ 0 (by decide) rfl rfl (by decide)

/-! ## C6: single delivery of `once` -/

/-- What `once(e, cb)` on an event with no prior subscribers, followed by
two emits, does: the wrapper is registered; the first emit invokes the
original callback with the first emission's arguments and the wrapped
subscription leaves the registry; the second emit invokes nothing. -/
def OnceSpec (st : EventBus.BusState) (e : String) (cb : Callback) (wid : Nat)
    (args1 args2 : List JsValue) : Prop :=
  ∃ st1, EventBus.once st e cb wid = Except.ok st1 ∧
    EventBus.getEvent st1.listeners e = some [⟨wid, CbKind.wrapper cb.id e⟩] ∧
    (EventBus.emit st1 e args1).invocations = st.invocations ++ [(cb.id, args1)] ∧
    EventBus.getEvent (EventBus.emit st1 e args1).listeners e = some [] ∧
    (EventBus.emit (EventBus.emit st1 e args1) e args2).invocations =
      st.invocations ++ [(cb.id, args1)]

/-- **C6.** `once(e, cb)` followed by two `emit(e, ·)` calls invokes `cb`
exactly once, with the arguments of the first emission only; after the
first invocation the wrapped subscription has been removed from the
registry. -/
theorem once_single_delivery (st : EventBus.BusState) (e : String) (cb : Callback)
    (wid : Nat) (args1 args2 : List JsValue)
    (hv : EventBus.validarTipo e = true)
    (hnone : EventBus.getEvent st.listeners e = none) :
    OnceSpec st e cb wid args1 args2 := by
  have hcbs : EventBus.onCbs st e ⟨wid, CbKind.wrapper cb.id e⟩ =
      [⟨wid, CbKind.wrapper cb.id e⟩] :=
    EventBus.onCbs_fresh st e _ hnone
  have honce : EventBus.once st e cb wid = Except.ok
      { st with listeners := (EventBus.setEvent (EventBus.onListeners st e) e
          [⟨wid, CbKind.wrapper cb.id e⟩]) } := by
    simp only [EventBus.once, hv, if_true]
    rw [EventBus.on_valid st e _ hv, hcbs]
    rfl
  have hget1 : EventBus.getEvent
      (EventBus.setEvent (EventBus.onListeners st e) e
        [⟨wid, CbKind.wrapper cb.id e⟩]) e =
      some [⟨wid, CbKind.wrapper cb.id e⟩] :=
    EventBus.getEvent_setEvent_self _ _ _ (EventBus.onListeners_isSome st e)
  have hset : ∀ cbs, EventBus.getEvent
      (EventBus.setEvent (EventBus.setEvent (EventBus.onListeners st e) e
        [⟨wid, CbKind.wrapper cb.id e⟩]) e cbs) e = some cbs :=
    fun cbs => EventBus.getEvent_setEvent_self _ _ _ (by simp [hget1])
  refine ⟨_, honce, hget1, ?_, ?_, ?_⟩
  · simp [EventBus.emit, EventBus.dispatch, EventBus.registered,
      EventBus.invokeCb, hget1]
  · simp [EventBus.emit, EventBus.dispatch, EventBus.registered,
      EventBus.invokeCb, hget1, hset]
  · simp [EventBus.emit, EventBus.dispatch, EventBus.registered,
      EventBus.invokeCb, hget1, hset]

/-- **C6 (witness).** `once` on a fresh bus, emitting `7` then `8`: the
callback runs once, with `7`. -/
theorem once_single_delivery_witness :
    OnceSpec EventBus.emptyBus "e" ⟨0, CbKind.plain⟩ 1
      [JsValue.vnum 7] [JsValue.vnum 8] :=
  once_single_delivery EventBus.emptyBus "e" ⟨0, CbKind.plain⟩ 1
    [JsValue.vnum 7] [JsValue.vnum 8] (by decide) (by decide)

/-! ## Lemmas on the cache map and `limpiarEntrada` -/

namespace Cache

theorem mapLookup_mapSet_self (l : List (String × Entry)) (k : String) (e : Entry) :
    mapLookup (mapSet l k e) k = some e := by
  induction l with
  | nil => simp [mapSet, mapLookup]
  | cons p rest ih =>
    by_cases hk : p.1 = k
    · simp [mapSet, mapLookup, hk]
    · simp [mapSet, mapLookup, hk, ih]

theorem mapLookup_mapSet_ne (l : List (String × Entry)) (k k' : String) (e : Entry)
    (h : k' ≠ k) : mapLookup (mapSet l k e) k' = mapLookup l k' := by
  induction l with
  | nil => simp [mapSet, mapLookup, Ne.symm h]
  | cons p rest ih =>
    by_cases hk : p.1 = k
    · simp [mapSet, mapLookup, hk, Ne.symm h]
    · simp only [mapSet, hk, if_false, mapLookup]
      by_cases hk' : p.1 = k'
      · simp [hk']
      · simp [hk', ih]

theorem mapLookup_mapDelete_self (l : List (String × Entry)) (k : String) :
    mapLookup (mapDelete l k) k = none := by
  induction l with
  | nil => rfl
  | cons p rest ih =>
    by_cases hk : p.1 = k
    · simp [mapDelete, List.filter_cons, hk, ih]
      simpa [mapDelete] using ih
    · simp [mapDelete, List.filter_cons, hk, mapLookup, ih]
      simpa [mapDelete] using ih

theorem mapLookup_mapDelete_ne (l : List (String × Entry)) (k k' : String)
    (h : k' ≠ k) : mapLookup (mapDelete l k) k' = mapLookup l k' := by
  induction l with
  | nil => rfl
  | cons p rest ih =>
    by_cases hk : p.1 = k
    · simp [mapDelete, List.filter_cons, hk, mapLookup, Ne.symm h]
      simpa [mapDelete] using ih
    · by_cases hk' : p.1 = k'
      · simp [mapDelete, List.filter_cons, hk, mapLookup, hk', h]
      · simp [mapDelete, List.filter_cons, hk, mapLookup, hk', h]
        simpa [mapDelete] using ih

/-- `limpiarEntrada` only touches the cache map and the pending timers. -/
theorem limpiar_frame (st : CacheState) (k : String) :
    (limpiarEntrada st k).hits = st.hits ∧
    (limpiarEntrada st k).misses = st.misses ∧
    (limpiarEntrada st k).nextTid = st.nextTid ∧
    (limpiarEntrada st k).bus = st.bus := by
  unfold limpiarEntrada
  split <;> simp

/-- After `limpiarEntrada` the key is gone from the cache map. -/
theorem limpiar_lookup_self (st : CacheState) (k : String) :
    mapLookup (limpiarEntrada st k).cache k = none := by
  unfold limpiarEntrada
  cases hm : mapLookup st.cache k with
  | none => simpa using hm
  | some e => simp [mapLookup_mapDelete_self]

/-- `limpiarEntrada` leaves every other key's entry alone. -/
theorem limpiar_lookup_ne (st : CacheState) (k k' : String) (h : k' ≠ k) :
    mapLookup (limpiarEntrada st k).cache k' = mapLookup st.cache k' := by
  unfold limpiarEntrada
  cases hm : mapLookup st.cache k with
  | none => rfl
  | some e => simp [mapLookup_mapDelete_ne _ _ _ h]

/-- `set` on a valid key with a positive integer TTL: the torn-down state
gets the fresh entry, with a timer armed to fire at `now + T`. -/
theorem set_valid_pos (st : CacheState) (k : String) (v : JsValue) (T now : Int)
    (hk : jsTrim k ≠ "") (hT : 0 < T) :
    Cache.set st (JsArg.str k) v (TtlArg.num T) now = Except.ok
      { limpiarEntrada st k with
        cache := (mapSet (limpiarEntrada st k).cache k
          ⟨v, now + T, some (limpiarEntrada st k).nextTid⟩),
        timers := ((limpiarEntrada st k).timers ++
          [⟨(limpiarEntrada st k).nextTid, k, now + T⟩]),
        nextTid := (limpiarEntrada st k).nextTid + 1 } := by
  have hnn : ¬ T < 0 := not_lt.mpr hT.le
  simp [Cache.set, hk, hnn, hT]

/-- `set` on a valid key with TTL `0`: the fresh entry never expires and
no timer is armed. -/
theorem set_valid_zero (st : CacheState) (k : String) (v : JsValue) (now : Int)
    (hk : jsTrim k ≠ "") :
    Cache.set st (JsArg.str k) v (TtlArg.num 0) now = Except.ok
      { limpiarEntrada st k with
        cache := (mapSet (limpiarEntrada st k).cache k ⟨v, 0, none⟩) } := by
  simp [Cache.set, hk]

/-- `get` on a present, unexpired entry. -/
theorem get_hit (st : CacheState) (k : String) (now : Int) (e : Entry)
    (hl : mapLookup st.cache k = some e)
    (hcond : ¬(0 < e.expiracion ∧ e.expiracion < now)) :
    Cache.get st k now = (e.valor,
      { st with hits := st.hits + 1,
                bus := EventBus.emit st.bus "cache:hit" [JsValue.vstr k, e.valor] }) := by
  simp [Cache.get, hl, hcond]

/-- `get` on an absent key. -/
theorem get_miss_absent (st : CacheState) (k : String) (now : Int)
    (hl : mapLookup st.cache k = none) :
    Cache.get st k now = (JsValue.vnull,
      { st with misses := st.misses + 1,
                bus := EventBus.emit st.bus "cache:miss" [JsValue.vstr k] }) := by
  simp [Cache.get, hl]

/-- `get` on a present entry whose expiry has strictly passed: lazy
teardown. -/
theorem get_miss_expired (st : CacheState) (k : String) (now : Int) (e : Entry)
    (hl : mapLookup st.cache k = some e)
    (hcond : 0 < e.expiracion ∧ e.expiracion < now) :
    Cache.get st k now = (JsValue.vnull,
      { limpiarEntrada st k with
        misses := (limpiarEntrada st k).misses + 1,
        bus := EventBus.emit (limpiarEntrada st k).bus "cache:miss"
          [JsValue.vstr k] }) := by
  simp [Cache.get, hl, hcond]

end Cache

/-! ## C1: expiry behaviour of `get` against an armed TTL -/

/-- The cache state after `set("k", "v", 5)` on a fresh store at time 0:
the entry expires at 5 and its proactive timer is armed for 5. -/
def boundaryCache : Cache.CacheState :=
  setD (Cache.freshCache EventBus.emptyBus) (JsArg.str "k") (JsValue.vstr "v")
    (TtlArg.num 5) 0

/-- **C1 (counterexample).** The claim says a `get` at `now = setTime + T`
must return absent and count a miss regardless of the timer.  On the code
the lazy check is strict (`entrada.expiracion < ahora`, line 190): with
the proactive timer not yet fired, a `get` at exactly `setTime + T`
returns the stored value, counts a hit, and emits `cache:hit`. -/
theorem get_at_exact_expiry_hits :
    (Cache.get boundaryCache "k" 5).1 = JsValue.vstr "v" ∧
    (Cache.get boundaryCache "k" 5).2.hits = 1 ∧
    (Cache.get boundaryCache "k" 5).2.misses = 0 ∧
    (Cache.get boundaryCache "k" 5).2.bus.emitted =
      [("cache:hit", [JsValue.vstr "k", JsValue.vstr "v"])] := by decide

/-- Observable behaviour of every `get` after `set(k, v, T)` at time `s`
armed a TTL `T > 0`:
* with the proactive timer still pending, a `get` at `now ≤ s + T` returns
  the value and counts a hit, and a `get` at `now > s + T` returns absent
  and counts a miss (lazy expiry);
* once the armed timer has fired, every `get` returns absent and counts a
  miss. -/
def ExpirySpec (st : Cache.CacheState) (k : String) (v : JsValue) (T s : Int) :
    Prop :=
  ∃ st1, Cache.set st (JsArg.str k) v (TtlArg.num T) s = Except.ok st1 ∧
    ∃ tmr : Cache.Timer, tmr.clave = k ∧ tmr.fireAt = s + T ∧ tmr ∈ st1.timers ∧
      (∀ now, now ≤ s + T →
        (Cache.get st1 k now).1 = v ∧
        (Cache.get st1 k now).2.hits = st.hits + 1 ∧
        (Cache.get st1 k now).2.misses = st.misses) ∧
      (∀ now, s + T < now →
        (Cache.get st1 k now).1 = JsValue.vnull ∧
        (Cache.get st1 k now).2.hits = st.hits ∧
        (Cache.get st1 k now).2.misses = st.misses + 1) ∧
      (∀ now,
        (Cache.get (Cache.timerFire st1 tmr) k now).1 = JsValue.vnull ∧
        (Cache.get (Cache.timerFire st1 tmr) k now).2.hits = st.hits ∧
        (Cache.get (Cache.timerFire st1 tmr) k now).2.misses = st.misses + 1)

/-- **C1 (amended).** For a key set with `T > 0` at timestamp `s ≥ 0`:
while the proactive timer has not fired, a `get` at `now ≤ s + T` returns
the stored value and counts a hit, and a `get` at `now > s + T` returns
absent and counts a miss (the lazy check is strictly `expiresAt < now`);
after the proactive timer has fired, every `get` returns absent and counts
a miss.  At the exact boundary `now = s + T` the outcome therefore depends
on whether the timer has already fired. -/
theorem expiry_behaviour (st : Cache.CacheState) (k : String) (v : JsValue)
    (T s : Int) (hk : jsTrim k ≠ "") (hT : 0 < T) (hs : 0 ≤ s) :
    ExpirySpec st k v T s := by
  refine ⟨_, Cache.set_valid_pos st k v T s hk hT,
    ⟨(Cache.limpiarEntrada st k).nextTid, k, s + T⟩, rfl, rfl, ?_, ?_, ?_, ?_⟩
  · simp
  · intro now hnow
    have hl : Cache.mapLookup (Cache.mapSet (Cache.limpiarEntrada st k).cache k
        ⟨v, s + T, some (Cache.limpiarEntrada st k).nextTid⟩) k =
        some ⟨v, s + T, some (Cache.limpiarEntrada st k).nextTid⟩ :=
      Cache.mapLookup_mapSet_self _ _ _
    have hcond : ¬(0 < (s + T) ∧ (s + T) < now) := by
      intro hc
      exact absurd hc.2 (not_lt.mpr hnow)
    have hcounters := Cache.limpiar_frame st k
    rw [Cache.get_hit _ k now _ hl hcond]
    simp [hcounters.1, hcounters.2.1]
  · intro now hnow
    have hl : Cache.mapLookup (Cache.mapSet (Cache.limpiarEntrada st k).cache k
        ⟨v, s + T, some (Cache.limpiarEntrada st k).nextTid⟩) k =
        some ⟨v, s + T, some (Cache.limpiarEntrada st k).nextTid⟩ :=
      Cache.mapLookup_mapSet_self _ _ _
    have hcond : 0 < (s + T) ∧ (s + T) < now := ⟨by omega, hnow⟩
    have hcounters := Cache.limpiar_frame st k
    rw [Cache.get_miss_expired _ k now _ hl hcond]
    refine ⟨rfl, ?_, ?_⟩ <;>
      simp [Cache.limpiar_frame, hcounters.1, hcounters.2.1]
  · intro now
    have hcounters := Cache.limpiar_frame st k
    refine ⟨?_, ?_, ?_⟩ <;>
      simp [Cache.timerFire, Cache.get, Cache.mapLookup_mapDelete_self,
        hcounters.1, hcounters.2.1]

/-- **C1 (amended, witness).** The amended expiry behaviour at the
concrete scenario behind `boundaryCache`. -/
theorem expiry_behaviour_witness :
    ExpirySpec (Cache.freshCache EventBus.emptyBus) "k" (JsValue.vstr "v") 5 0 :=
  expiry_behaviour (Cache.freshCache EventBus.emptyBus) "k" (JsValue.vstr "v")
    5 0 (by decide) (by decide) (by decide)

/-! ## C7: hit/miss accounting, `del`'s frame, `clear`'s reset -/

namespace EventBus

theorem invokeCb_emitted (st : BusState) (args : List JsValue) (cb : Callback) :
    (invokeCb st args cb).emitted = st.emitted := by
  obtain ⟨cid, kind⟩ := cb
  cases kind with
  | plain => rfl
  | throwing => rfl
  | wrapper inner ev =>
    cases hg : getEvent st.listeners ev with
    | none => simp [invokeCb, hg]
    | some cbs => simp [invokeCb, hg]

theorem dispatch_emitted (e : String) (args : List JsValue) (cbs : List Callback)
    (st : BusState) : (dispatch e args cbs st).emitted = st.emitted := by
  induction cbs generalizing st with
  | nil => rfl
  | cons cb rest ih =>
    unfold dispatch
    split
    · rw [ih, invokeCb_emitted]
    · exact ih st

/-- `emit` appends exactly its own call to the emitted-calls trace. -/
theorem emit_emitted (st : BusState) (e : String) (args : List JsValue) :
    (emit st e args).emitted = st.emitted ++ [(e, args)] := by
  unfold emit
  cases hg : getEvent st.listeners e with
  | none => simp [hg]
  | some cbs => simp [hg, dispatch_emitted]

end EventBus

/-- **C7.** A fresh store has `hits = 0` and `misses = 0`; a `get` that
returns a value increments `hits` by exactly 1; a `get` that misses — key
absent or entry lazily expired — increments `misses` by exactly 1; `del`
never changes either counter, never touches the bus (so no cache event is
emitted), and returns `true` exactly when the key was present; `clear()`
resets both counters to 0. -/
theorem hit_miss_accounting :
    (∀ bus, (Cache.freshCache bus).hits = 0 ∧ (Cache.freshCache bus).misses = 0) ∧
    (∀ st k now e, Cache.mapLookup st.cache k = some e →
      ¬(0 < e.expiracion ∧ e.expiracion < now) →
      (Cache.get st k now).2.hits = st.hits + 1 ∧
      (Cache.get st k now).2.misses = st.misses) ∧
    (∀ st k now, Cache.mapLookup st.cache k = none →
      (Cache.get st k now).2.misses = st.misses + 1 ∧
      (Cache.get st k now).2.hits = st.hits) ∧
    (∀ st k now e, Cache.mapLookup st.cache k = some e →
      0 < e.expiracion ∧ e.expiracion < now →
      (Cache.get st k now).2.misses = st.misses + 1 ∧
      (Cache.get st k now).2.hits = st.hits) ∧
    (∀ st k, (Cache.del st k).2.hits = st.hits ∧
      (Cache.del st k).2.misses = st.misses ∧
      (Cache.del st k).2.bus = st.bus ∧
      ((Cache.del st k).1 = true ↔ (Cache.mapLookup st.cache k).isSome = true)) ∧
    (∀ st, (Cache.cacheClear st).hits = 0 ∧ (Cache.cacheClear st).misses = 0) := by
  refine ⟨fun bus => ⟨rfl, rfl⟩, ?_, ?_, ?_, ?_, fun st => ⟨rfl, rfl⟩⟩
  · intro st k now e hl hcond
    rw [Cache.get_hit st k now e hl hcond]
    exact ⟨rfl, rfl⟩
  · intro st k now hl
    rw [Cache.get_miss_absent st k now hl]
    exact ⟨rfl, rfl⟩
  · intro st k now e hl hcond
    have hcounters := Cache.limpiar_frame st k
    rw [Cache.get_miss_expired st k now e hl hcond]
    exact ⟨by simp [hcounters.2.1], by simp [hcounters.1]⟩
  · intro st k
    have hcounters := Cache.limpiar_frame st k
    unfold Cache.del
    cases hm : Cache.mapLookup st.cache k with
    | some e =>
        exact ⟨hcounters.1, hcounters.2.1, hcounters.2.2.2, by simp [hm]⟩
    | none => exact ⟨rfl, rfl, rfl, by simp [hm]⟩

/-! ## C8: `set` validation of the key and TTL normalisation -/

/-- **C8 (counterexample).** The claim says `set` raises `InvalidArgument`
exactly when the key is empty or not a string.  The key `" "` is a
non-empty string, yet `set` raises: the code checks
`clave.trim().length === 0`, so a whitespace-only key is rejected too. -/
theorem whitespace_key_raises :
    Cache.set (Cache.freshCache EventBus.emptyBus) (JsArg.str " ") JsValue.vnull
        (TtlArg.num 0) 0 = Except.error "La clave debe ser un string no vacio" ∧
    " " ≠ "" :=
  ⟨rfl, by decide⟩

/-- **C8 (amended).** `set(key, value, ttlMillis)` raises `InvalidArgument`
exactly when `key` is not a string or trims to the empty string (so a
whitespace-only key also raises); for every `ttlMillis` that is not a
non-negative number — wrong type, `NaN`, or negative — `set` does not fail
but behaves exactly as if `ttlMillis` were `0`: no timer is armed, the
entry never expires, and every later `get` of the key returns the value
and counts a hit. -/
theorem set_validation_and_ttl_normalisation :
    (∀ st v ttl now, Cache.set st JsArg.nonStr v ttl now =
      Except.error "La clave debe ser un string no vacio") ∧
    (∀ st s v ttl now, jsTrim s = "" →
      Cache.set st (JsArg.str s) v ttl now =
        Except.error "La clave debe ser un string no vacio") ∧
    (∀ st s v ttl now, jsTrim s ≠ "" →
      ∃ st1, Cache.set st (JsArg.str s) v ttl now = Except.ok st1) ∧
    (∀ st s v ttl now, jsTrim s ≠ "" →
      (ttl = TtlArg.nonNum ∨ ttl = TtlArg.nanV ∨
        ∃ n, ttl = TtlArg.num n ∧ n < 0) →
      Cache.set st (JsArg.str s) v ttl now =
        Cache.set st (JsArg.str s) v (TtlArg.num 0) now ∧
      ∃ st1, Cache.set st (JsArg.str s) v ttl now = Except.ok st1 ∧
        st1.timers = (Cache.limpiarEntrada st s).timers ∧
        ∀ now2, (Cache.get st1 s now2).1 = v ∧
          (Cache.get st1 s now2).2.hits = st.hits + 1) := by
  refine ⟨fun st v ttl now => rfl, ?_, ?_, ?_⟩
  · intro st s v ttl now h
    simp [Cache.set, h]
  · intro st s v ttl now h
    unfold Cache.set
    simp only [h, if_false]
    split
    · exact ⟨_, rfl⟩
    · exact ⟨_, rfl⟩
  · intro st s v ttl now h hbad
    have hzero : Cache.set st (JsArg.str s) v ttl now = Except.ok
        { Cache.limpiarEntrada st s with
          cache := (Cache.mapSet (Cache.limpiarEntrada st s).cache s ⟨v, 0, none⟩) } := by
      rcases hbad with hb | hb | ⟨n, hb, hn⟩
      · subst hb
        simp [Cache.set, h]
      · subst hb
        simp [Cache.set, h]
      · subst hb
        simp [Cache.set, h, hn]
    refine ⟨?_, _, hzero, rfl, ?_⟩
    · rw [hzero, Cache.set_valid_zero st s v now h]
    · intro now2
      have hcounters := Cache.limpiar_frame st s
      have hl : Cache.mapLookup (Cache.mapSet (Cache.limpiarEntrada st s).cache s
          ⟨v, 0, none⟩) s = some ⟨v, 0, none⟩ := Cache.mapLookup_mapSet_self _ _ _
      have hcond : ¬(0 < (0:Int) ∧ (0:Int) < now2) := by simp
      rw [Cache.get_hit _ s now2 _ hl hcond]
      exact ⟨rfl, by simp [hcounters.1]⟩

/-! ## C10: a stored `null` is indistinguishable from a miss by value -/

/-- **C10.** The cache's absent result is the same `null` a caller may
store: after `set(k, null, 0)`, `get(k)` returns `null` while counting a
hit and emitting `cache:hit`; a `get` of an absent key also returns
`null`, counting a miss and emitting `cache:miss` — only the counters and
the emitted event differ, never the returned value. -/
theorem stored_null_looks_like_miss :
    (∀ st k now now2, jsTrim k ≠ "" →
      ∃ st1, Cache.set st (JsArg.str k) JsValue.vnull (TtlArg.num 0) now =
          Except.ok st1 ∧
        (Cache.get st1 k now2).1 = JsValue.vnull ∧
        (Cache.get st1 k now2).2.hits = st.hits + 1 ∧
        (Cache.get st1 k now2).2.misses = st.misses ∧
        (Cache.get st1 k now2).2.bus.emitted =
          st.bus.emitted ++ [("cache:hit", [JsValue.vstr k, JsValue.vnull])]) ∧
    (∀ st k now, Cache.mapLookup st.cache k = none →
      (Cache.get st k now).1 = JsValue.vnull ∧
      (Cache.get st k now).2.misses = st.misses + 1 ∧
      (Cache.get st k now).2.bus.emitted =
        st.bus.emitted ++ [("cache:miss", [JsValue.vstr k])]) := by
  constructor
  · intro st k now now2 hk
    have hcounters := Cache.limpiar_frame st k
    have hl : Cache.mapLookup (Cache.mapSet (Cache.limpiarEntrada st k).cache k
        ⟨JsValue.vnull, 0, none⟩) k = some ⟨JsValue.vnull, 0, none⟩ :=
      Cache.mapLookup_mapSet_self _ _ _
    have hcond : ¬(0 < (0:Int) ∧ (0:Int) < now2) := by simp
    refine ⟨_, Cache.set_valid_zero st k JsValue.vnull now hk, ?_⟩
    rw [Cache.get_hit _ k now2 _ hl hcond]
    refine ⟨rfl, by simp [hcounters.1], by simp [hcounters.2.1], ?_⟩
    simp [EventBus.emit_emitted, hcounters.2.2.2]
  · intro st k now hl
    rw [Cache.get_miss_absent st k now hl]
    exact ⟨rfl, rfl, by simp [EventBus.emit_emitted]⟩

/-! ## C2: the pending-timer invariant -/

namespace Cache

/-- Well-formedness of the pending timers of a cache state, as the
operations maintain it:
* every pending timer's handle was allocated before `nextTid`;
* pending handles are pairwise distinct;
* every pending timer belongs to the current entry of its key — the entry
  exists and its `timeoutId` is exactly this timer's handle (no orphaned
  timers). -/
def TimersWF (st : CacheState) : Prop :=
  (∀ t ∈ st.timers, t.tid < st.nextTid) ∧
  st.timers.Pairwise (fun a b => a.tid ≠ b.tid) ∧
  (∀ t ∈ st.timers, ∃ e, mapLookup st.cache t.clave = some e ∧
    e.timeoutId = some t.tid)

theorem mapLookup_mem_keys (l : List (String × Entry)) (k : String) (e : Entry)
    (h : mapLookup l k = some e) : k ∈ l.map Prod.fst := by
  induction l with
  | nil => simp [mapLookup] at h
  | cons p rest ih =>
    by_cases hk : p.1 = k
    · simp [hk]
    · simp only [mapLookup, hk, if_false] at h
      simp [ih h]

/-- The three shapes of `limpiarEntrada`, by the entry found for the key. -/
theorem limpiar_eq_absent (st : CacheState) (k : String)
    (hl : mapLookup st.cache k = none) : limpiarEntrada st k = st := by
  unfold limpiarEntrada
  rw [hl]

theorem limpiar_eq_no_timeout (st : CacheState) (k : String) (e : Entry)
    (hl : mapLookup st.cache k = some e) (ht : e.timeoutId = none) :
    limpiarEntrada st k = { st with cache := mapDelete st.cache k } := by
  unfold limpiarEntrada
  rw [hl]
  simp [ht]

theorem limpiar_eq_timeout (st : CacheState) (k : String) (e : Entry) (tid : Nat)
    (hl : mapLookup st.cache k = some e) (ht : e.timeoutId = some tid) :
    limpiarEntrada st k =
      { st with cache := mapDelete st.cache k,
                timers := clearTimeout st.timers tid } := by
  unfold limpiarEntrada
  rw [hl]
  simp [ht]

/-- `limpiarEntrada` never adds a pending timer. -/
theorem limpiar_timers_sub (st : CacheState) (k : String) (t : Timer)
    (h : t ∈ (limpiarEntrada st k).timers) : t ∈ st.timers := by
  cases hm : mapLookup st.cache k with
  | none => rw [limpiar_eq_absent st k hm] at h; exact h
  | some e =>
    cases ht : e.timeoutId with
    | none => rw [limpiar_eq_no_timeout st k e hm ht] at h; exact h
    | some tid =>
      rw [limpiar_eq_timeout st k e tid hm ht] at h
      simp only [clearTimeout] at h
      exact (List.mem_filter.mp h).1

/-- `limpiarEntrada k` cancels the pending timer named by the entry of
`k`: no surviving timer carries that handle. -/
theorem limpiar_cancels (st : CacheState) (k : String) (e : Entry) (tid : Nat)
    (hl : mapLookup st.cache k = some e) (ht : e.timeoutId = some tid) :
    ∀ t ∈ (limpiarEntrada st k).timers, t.tid ≠ tid := by
  intro t hmem
  rw [limpiar_eq_timeout st k e tid hl ht] at hmem
  simp only [clearTimeout] at hmem
  simpa using (List.mem_filter.mp hmem).2

/-- Under `TimersWF`, no pending timer for `k` survives `limpiarEntrada k`
(the entry's teardown cancelled it, or it never existed). -/
theorem limpiar_no_timer_for_key (st : CacheState) (k : String)
    (hwf : TimersWF st) :
    ∀ t ∈ (limpiarEntrada st k).timers, t.clave ≠ k := by
  intro t hmem hceq
  have hst : t ∈ st.timers := limpiar_timers_sub st k t hmem
  obtain ⟨e, he, hte⟩ := hwf.2.2 t hst
  rw [hceq] at he
  exact limpiar_cancels st k e t.tid he hte t hmem rfl

/-- `limpiarEntrada` preserves the timer invariant. -/
theorem timersWF_limpiar (st : CacheState) (k : String) (hwf : TimersWF st) :
    TimersWF (limpiarEntrada st k) := by
  obtain ⟨hbound, hpair, hatt⟩ := hwf
  have hsub := limpiar_timers_sub st k
  have hframe := limpiar_frame st k
  refine ⟨?_, ?_, ?_⟩
  · intro t hmem
    rw [hframe.2.2.1]
    exact hbound t (hsub t hmem)
  · cases hm : mapLookup st.cache k with
    | none => rw [limpiar_eq_absent st k hm]; exact hpair
    | some e =>
      cases ht : e.timeoutId with
      | none => rw [limpiar_eq_no_timeout st k e hm ht]; exact hpair
      | some tid =>
        rw [limpiar_eq_timeout st k e tid hm ht]
        exact List.Pairwise.sublist (List.filter_sublist _) hpair
  · intro t hmem
    have hne : t.clave ≠ k :=
      limpiar_no_timer_for_key st k ⟨hbound, hpair, hatt⟩ t hmem
    obtain ⟨e, he, hte⟩ := hatt t (hsub t hmem)
    exact ⟨e, by rw [limpiar_lookup_ne st k t.clave hne]; exact he, hte⟩

/-- `set` preserves the timer invariant: the old entry's timer was
cancelled by `limpiarEntrada` and the newly armed timer gets the fresh
handle `nextTid`, attached to the new entry. -/
theorem timersWF_set (st : CacheState) (clave : JsArg) (v : JsValue)
    (ttl : TtlArg) (now : Int) (st1 : CacheState) (hwf : TimersWF st)
    (h : Cache.set st clave v ttl now = Except.ok st1) : TimersWF st1 := by
  cases clave with
  | nonStr => exact absurd h (by simp [Cache.set])
  | str s =>
    by_cases hs : jsTrim s = ""
    · exact absurd h (by simp [Cache.set, hs])
    · obtain ⟨hboundL, hpairL, hattL⟩ := timersWF_limpiar st s hwf
      have hnok := limpiar_no_timer_for_key st s hwf
      unfold Cache.set at h
      simp only [hs, if_false] at h
      split at h
      · simp only [Except.ok.injEq] at h
        subst h
        refine ⟨?_, ?_, ?_⟩
        · intro t hmem
          rcases List.mem_append.mp hmem with hm | hm
          · exact Nat.lt_succ_of_lt (hboundL t hm)
          · simp only [List.mem_singleton] at hm
            subst hm
            exact Nat.lt_succ_self _
        · rw [List.pairwise_append]
          refine ⟨hpairL, List.pairwise_singleton _ _, ?_⟩
          intro a ha b hb
          simp only [List.mem_singleton] at hb
          subst hb
          exact Nat.ne_of_lt (hboundL a ha)
        · intro t hmem
          rcases List.mem_append.mp hmem with hm | hm
          · obtain ⟨e, he, hte⟩ := hattL t hm
            refine ⟨e, ?_, hte⟩
            rw [mapLookup_mapSet_ne _ _ _ _ (hnok t hm)]
            exact he
          · simp only [List.mem_singleton] at hm
            subst hm
            exact ⟨_, mapLookup_mapSet_self _ _ _, rfl⟩
      · simp only [Except.ok.injEq] at h
        subst h
        refine ⟨hboundL, hpairL, ?_⟩
        intro t hmem
        obtain ⟨e, he, hte⟩ := hattL t hmem
        refine ⟨e, ?_, hte⟩
        rw [mapLookup_mapSet_ne _ _ _ _ (hnok t hmem)]
        exact he

/-- `get` preserves the timer invariant. -/
theorem timersWF_get (st : CacheState) (k : String) (now : Int)
    (hwf : TimersWF st) : TimersWF (Cache.get st k now).2 := by
  cases hm : mapLookup st.cache k with
  | none =>
    rw [get_miss_absent st k now hm]
    exact hwf
  | some e =>
    by_cases hc : 0 < e.expiracion ∧ e.expiracion < now
    · rw [get_miss_expired st k now e hm hc]
      exact timersWF_limpiar st k hwf
    · rw [get_hit st k now e hm hc]
      exact hwf

/-- `del` preserves the timer invariant. -/
theorem timersWF_del (st : CacheState) (k : String) (hwf : TimersWF st) :
    TimersWF (Cache.del st k).2 := by
  unfold Cache.del
  cases hm : mapLookup st.cache k with
  | some e =>
    simp only [hm]
    exact timersWF_limpiar st k hwf
  | none =>
    simp only [hm]
    exact hwf

/-- A pending timer firing preserves the timer invariant. -/
theorem timersWF_timerFire (st : CacheState) (t : Timer) (hwf : TimersWF st)
    (hmem : t ∈ st.timers) : TimersWF (timerFire st t) := by
  obtain ⟨hbound, hpair, hatt⟩ := hwf
  have hmem' : ∀ t', t' ∈ (timerFire st t).timers →
      t' ∈ st.timers ∧ t'.tid ≠ t.tid := by
    intro t' h'
    simp only [timerFire, clearTimeout] at h'
    have := List.mem_filter.mp h'
    exact ⟨this.1, by simpa using this.2⟩
  refine ⟨?_, ?_, ?_⟩
  · intro t' h'
    exact hbound t' (hmem' t' h').1
  · simp only [timerFire, clearTimeout]
    exact List.Pairwise.sublist (List.filter_sublist _) hpair
  · intro t' h'
    obtain ⟨hm', hne⟩ := hmem' t' h'
    obtain ⟨e', he', hte'⟩ := hatt t' hm'
    obtain ⟨e, he, hte⟩ := hatt t hmem
    have hcne : t'.clave ≠ t.clave := by
      intro hceq
      rw [hceq, he] at he'
      injection he' with hee
      subst hee
      rw [hte] at hte'
      injection hte' with htt
      exact hne htt.symm
    refine ⟨e', ?_, hte'⟩
    simp only [timerFire]
    rw [mapLookup_mapDelete_ne _ _ _ hcne]
    exact he'

/-- Distinct handles plus attachment to entries force distinct keys:
under the invariant, at most one pending timer exists per key. -/
theorem pairwise_clave (cache : List (String × Entry)) (l : List Timer)
    (hpair : l.Pairwise (fun a b => a.tid ≠ b.tid))
    (hatt : ∀ t ∈ l, ∃ e, mapLookup cache t.clave = some e ∧
      e.timeoutId = some t.tid) :
    l.Pairwise (fun a b => a.clave ≠ b.clave) := by
  induction l with
  | nil => exact List.Pairwise.nil
  | cons t rest ih =>
    rw [List.pairwise_cons] at hpair ⊢
    refine ⟨?_, ih hpair.2 (fun x hx => hatt x (List.mem_cons_of_mem _ hx))⟩
    intro b hb hceq
    obtain ⟨e1, he1, ht1⟩ := hatt t (List.mem_cons_self _ _)
    obtain ⟨e2, he2, ht2⟩ := hatt b (List.mem_cons_of_mem _ hb)
    rw [hceq, he2] at he1
    injection he1 with hee
    subst hee
    rw [ht1] at ht2
    injection ht2 with htt
    exact hpair.1 b hb htt

/-- Folding `limpiarEntrada` over any key list never adds a timer. -/
theorem foldl_limpiar_timers_sub (keys : List String) (st : CacheState)
    (t : Timer) (h : t ∈ (keys.foldl limpiarEntrada st).timers) :
    t ∈ st.timers := by
  induction keys generalizing st with
  | nil => exact h
  | cons k rest ih => exact limpiar_timers_sub st k t (ih _ h)

/-- A timer attached to its key's entry does not survive a
`limpiarEntrada` fold that visits its key. -/
theorem foldl_limpiar_kills (keys : List String) (st : CacheState) (t : Timer)
    (hatt : ∃ e, mapLookup st.cache t.clave = some e ∧
      e.timeoutId = some t.tid)
    (hkey : t.clave ∈ keys) :
    t ∉ (keys.foldl limpiarEntrada st).timers := by
  induction keys generalizing st with
  | nil => simp at hkey
  | cons k rest ih =>
    rw [List.foldl_cons]
    obtain ⟨e, he, hte⟩ := hatt
    by_cases hc : t.clave = k
    · intro hmem
      exact limpiar_cancels st k e t.tid (hc ▸ he) hte t
        (foldl_limpiar_timers_sub rest _ t hmem) rfl
    · have hkey' : t.clave ∈ rest := by simpa [hc] using hkey
      exact ih (limpiarEntrada st k)
        ⟨e, by rw [limpiar_lookup_ne st k t.clave hc]; exact he, hte⟩ hkey'

/-- `clear()` cancels every pending timer: under the invariant, none
survives the teardown fold. -/
theorem clear_timers_nil (st : CacheState) (hwf : TimersWF st) :
    (cacheClear st).timers = [] := by
  have hnone : ∀ t, t ∉ ((st.cache.map Prod.fst).foldl limpiarEntrada st).timers := by
    intro t
    by_cases hmem : t ∈ st.timers
    · obtain ⟨e, he, hte⟩ := hwf.2.2 t hmem
      exact foldl_limpiar_kills _ st t ⟨e, he, hte⟩ (mapLookup_mem_keys _ _ _ he)
    · intro habs
      exact hmem (foldl_limpiar_timers_sub _ st t habs)
  simp only [cacheClear]
  exact List.eq_nil_iff_forall_not_mem.mpr hnone

/-- `set` on the key of a pending timer cancels that timer: no timer of
the resulting state carries its handle (the newly armed one is fresh). -/
theorem set_cancels_old_timer (st : CacheState) (t : Timer) (v : JsValue)
    (ttl : TtlArg) (now : Int) (st1 : CacheState) (hwf : TimersWF st)
    (hmem : t ∈ st.timers)
    (h : Cache.set st (JsArg.str t.clave) v ttl now = Except.ok st1) :
    ∀ t' ∈ st1.timers, t'.tid ≠ t.tid := by
  obtain ⟨e, he, hte⟩ := hwf.2.2 t hmem
  have hcan := limpiar_cancels st t.clave e t.tid he hte
  have hbt : t.tid < st.nextTid := hwf.1 t hmem
  by_cases hs : jsTrim t.clave = ""
  · exact absurd h (by simp [Cache.set, hs])
  · unfold Cache.set at h
    simp only [hs, if_false] at h
    split at h
    · simp only [Except.ok.injEq] at h
      subst h
      intro t' hmem'
      rcases List.mem_append.mp hmem' with hm | hm
      · exact hcan t' hm
      · simp only [List.mem_singleton] at hm
        subst hm
        show (limpiarEntrada st t.clave).nextTid ≠ t.tid
        rw [(limpiar_frame st t.clave).2.2.1]
        exact ne_of_gt hbt
    · simp only [Except.ok.injEq] at h
      subst h
      exact hcan

/-- `del` on the key of a pending timer cancels that timer. -/
theorem del_cancels_old_timer (st : CacheState) (t : Timer) (hwf : TimersWF st)
    (hmem : t ∈ st.timers) :
    ∀ t' ∈ (Cache.del st t.clave).2.timers, t'.tid ≠ t.tid := by
  obtain ⟨e, he, hte⟩ := hwf.2.2 t hmem
  unfold Cache.del
  simp only [he]
  exact limpiar_cancels st t.clave e t.tid he hte

end Cache

/-- The claim's double-set scenario: `set(k, v1, 1000)` immediately
followed by `set(k, v2, 5000)` at time `t0` — the first set's timer is
armed, the second set cancels it and arms its own fresh one, the only
pending timer for `k` is the second one, and any `get` up to `t0 + 5000`
(in particular past `t0 + 1000`) still yields `v2` and a hit. -/
def DoubleSetSpec (st : Cache.CacheState) (k : String) (v1 v2 : JsValue)
    (t0 : Int) : Prop :=
  ∃ st1 st2 tid1 tid2,
    Cache.set st (JsArg.str k) v1 (TtlArg.num 1000) t0 = Except.ok st1 ∧
    Cache.set st1 (JsArg.str k) v2 (TtlArg.num 5000) t0 = Except.ok st2 ∧
    tid1 ≠ tid2 ∧
    (⟨tid1, k, t0 + 1000⟩ : Cache.Timer) ∈ st1.timers ∧
    (⟨tid2, k, t0 + 5000⟩ : Cache.Timer) ∈ st2.timers ∧
    (∀ t ∈ st2.timers, t.tid ≠ tid1) ∧
    (∀ t ∈ st2.timers, t.clave = k →
      t = (⟨tid2, k, t0 + 5000⟩ : Cache.Timer)) ∧
    (∀ now, t0 + 1000 < now → now ≤ t0 + 5000 →
      (Cache.get st2 k now).1 = v2 ∧
      (Cache.get st2 k now).2.hits = st.hits + 1)

/-- The double-set scenario holds from any well-formed state. -/
theorem double_set_holds (st : Cache.CacheState) (k : String) (v1 v2 : JsValue)
    (t0 : Int) (hwf : Cache.TimersWF st) (hk : jsTrim k ≠ "") :
    DoubleSetSpec st k v1 v2 t0 := by
  have hset1 := Cache.set_valid_pos st k v1 1000 t0 hk (by norm_num)
  set L := Cache.limpiarEntrada st k with hL
  set e1 : Cache.Entry := ⟨v1, t0 + 1000, some L.nextTid⟩ with he1
  set T1 : Cache.Timer := ⟨L.nextTid, k, t0 + 1000⟩ with hT1
  set st1 : Cache.CacheState := { L with
    cache := Cache.mapSet L.cache k e1,
    timers := L.timers ++ [T1],
    nextTid := L.nextTid + 1 } with hst1
  have hwf1 : Cache.TimersWF st1 := Cache.timersWF_set st _ v1 _ t0 _ hwf hset1
  have hlook1 : Cache.mapLookup st1.cache k = some e1 := by
    rw [hst1]
    exact Cache.mapLookup_mapSet_self _ _ _
  have hL2 := Cache.limpiar_eq_timeout st1 k e1 L.nextTid hlook1 (by rw [he1])
  set L2 : Cache.CacheState := { st1 with
    cache := Cache.mapDelete st1.cache k,
    timers := Cache.clearTimeout st1.timers L.nextTid } with hL2def
  have hset2 := Cache.set_valid_pos st1 k v2 5000 t0 hk (by norm_num)
  rw [hL2] at hset2
  set e2 : Cache.Entry := ⟨v2, t0 + 5000, some L2.nextTid⟩ with he2
  set T2 : Cache.Timer := ⟨L2.nextTid, k, t0 + 5000⟩ with hT2
  set st2 : Cache.CacheState := { L2 with
    cache := Cache.mapSet L2.cache k e2,
    timers := L2.timers ++ [T2],
    nextTid := L2.nextTid + 1 } with hst2
  have hnt2 : L2.nextTid = L.nextTid + 1 := by rw [hL2def, hst1]
  refine ⟨st1, st2, L.nextTid, L2.nextTid, hset1, hset2, ?_, ?_, ?_, ?_, ?_, ?_⟩
  · omega
  · rw [hst1, hT1]
    simp
  · rw [hst2, hT2]
    simp
  · intro t hmem
    rw [hst2] at hmem
    rcases List.mem_append.mp hmem with hm | hm
    · rw [hL2def] at hm
      simp only [Cache.clearTimeout] at hm
      simpa using (List.mem_filter.mp hm).2
    · simp only [List.mem_singleton] at hm
      subst hm
      show L2.nextTid ≠ L.nextTid
      omega
  · intro t hmem hclave
    rw [hst2] at hmem
    rcases List.mem_append.mp hmem with hm | hm
    · exfalso
      rw [← hL2] at hm
      exact Cache.limpiar_no_timer_for_key st1 k hwf1 t hm hclave
    · simpa using hm
  · intro now hlow hhigh
    have hlook2 : Cache.mapLookup st2.cache k = some e2 := by
      rw [hst2]
      exact Cache.mapLookup_mapSet_self _ _ _
    have hcond : ¬(0 < e2.expiracion ∧ e2.expiracion < now) := by
      rw [he2]
      intro hc
      exact absurd hc.2 (not_lt.mpr hhigh)
    rw [Cache.get_hit st2 k now e2 hlook2 hcond]
    have h0 : L.hits = st.hits := (Cache.limpiar_frame st k).1
    have hh : st2.hits = st.hits := by
      rw [hst2, hL2def, hst1]
      exact h0
    exact ⟨by simp [he2], by simp [hh, h0]⟩

/-- **C2.** At most one live expiry timer exists per key at any time.
The timer invariant `TimersWF` (pending handles distinct, each attached to
the current entry of its key) holds of a fresh store and is preserved by
`limpiarEntrada`, `set`, `get`, `del` and a timer firing; under it the
pending timers have pairwise-distinct keys.  `set` and `del` on a key with
a pending timer cancel that timer before removal/replacement, and
`clear()` cancels every pending timer.  Consequently in the double-set
scenario `set(k,v1,1000); set(k,v2,5000)` the first timer is no longer
pending (so it can never fire and remove the new entry), only the second
set's timer is pending for `k`, and a `get` after 1000ms but before
5000ms returns `v2`. -/
theorem one_live_timer_per_key :
    (∀ bus, Cache.TimersWF (Cache.freshCache bus)) ∧
    (∀ st k, Cache.TimersWF st → Cache.TimersWF (Cache.limpiarEntrada st k)) ∧
    (∀ st clave v ttl now st1, Cache.TimersWF st →
      Cache.set st clave v ttl now = Except.ok st1 → Cache.TimersWF st1) ∧
    (∀ st k now, Cache.TimersWF st → Cache.TimersWF (Cache.get st k now).2) ∧
    (∀ st k, Cache.TimersWF st → Cache.TimersWF (Cache.del st k).2) ∧
    (∀ st t, Cache.TimersWF st → t ∈ st.timers →
      Cache.TimersWF (Cache.timerFire st t)) ∧
    (∀ st, Cache.TimersWF st →
      st.timers.Pairwise (fun a b => a.clave ≠ b.clave)) ∧
    (∀ st t v ttl now st1, Cache.TimersWF st → t ∈ st.timers →
      Cache.set st (JsArg.str t.clave) v ttl now = Except.ok st1 →
      ∀ t' ∈ st1.timers, t'.tid ≠ t.tid) ∧
    (∀ st t, Cache.TimersWF st → t ∈ st.timers →
      ∀ t' ∈ (Cache.del st t.clave).2.timers, t'.tid ≠ t.tid) ∧
    (∀ st, Cache.TimersWF st → (Cache.cacheClear st).timers = []) ∧
    (∀ st k v1 v2 t0, Cache.TimersWF st → jsTrim k ≠ "" →
      DoubleSetSpec st k v1 v2 t0) :=
  ⟨fun _ => ⟨fun t ht => absurd ht (List.not_mem_nil t), List.Pairwise.nil,
      fun t ht => absurd ht (List.not_mem_nil t)⟩,
    fun st k hwf => Cache.timersWF_limpiar st k hwf,
    fun st clave v ttl now st1 hwf h =>
      Cache.timersWF_set st clave v ttl now st1 hwf h,
    fun st k now hwf => Cache.timersWF_get st k now hwf,
    fun st k hwf => Cache.timersWF_del st k hwf,
    fun st t hwf hm => Cache.timersWF_timerFire st t hwf hm,
    fun st hwf => Cache.pairwise_clave st.cache st.timers hwf.2.1 hwf.2.2,
    fun st t v ttl now st1 hwf hm h =>
      Cache.set_cancels_old_timer st t v ttl now st1 hwf hm h,
    fun st t hwf hm => Cache.del_cancels_old_timer st t hwf hm,
    fun st hwf => Cache.clear_timers_nil st hwf,
    fun st k v1 v2 t0 hwf hk => double_set_holds st k v1 v2 t0 hwf hk⟩

end EventSystem
